import Mathlib

/-!
Verification development for `sort_excel.py` (repository `Altairu/sort_excel`).

The Python source is shallowly embedded below.  Modelling conventions:

* Python strings are modelled as `List Char` (Unicode code points); Python
  compares strings by code points, which matches lexicographic comparison of
  the code-point lists (`chLt`).
* A pandas cell is a `Cell`: missing (`NaN`/`NaT`), a string, or a timestamp.
  A parsed date column entry is an `Option PDate` (`none` = `NaT`).
* `pd.Timestamp` values are restricted to `datetime64[ns]` range, so the year
  always renders with exactly four digits; `PDate` carries the digit bounds.
* A DataFrame is a list of rows (a record structure per schema); `sort_values`
  on a single column is modelled as a stable insertion sort by the column key
  with missing values largest (pandas `na_position='last'`).  pandas' default
  `kind='quicksort'` guarantees the same sorted key order but leaves the
  relative order of tied rows implementation-defined; the model fixes ties
  stably, and no theorem below about the single-column sorts depends on the
  tie order.  The multi-column sort in `_sort_for_date_sheet` is performed by
  pandas with `lexsort_indexer` (stable), which the stable insertion sort
  models exactly.
* `int(...)` is modelled by `pyInt?` (ASCII digits, optional sign, underscores
  between digits, surrounding whitespace), `str.strip` by `pyStrip` (ASCII
  whitespace), `str.split(':')` by `splitOnChar`.
-/

/-- ASCII whitespace, the characters stripped by Python `str.strip()` that can
occur in the data at hand. -/
def isPySpace (c : Char) : Bool :=
  c = ' ' || c = '\t' || c = '\n' || c = '\r' || c = '\x0b' || c = '\x0c'

/-- Model of Python `str.strip()`. -/
def pyStrip (s : List Char) : List Char :=
  ((s.dropWhile isPySpace).reverse.dropWhile isPySpace).reverse

/-- Model of Python `str.split(sep)` for a one-character separator: keeps empty
components, `[] ↦ [[]]`. -/
def splitOnChar (c : Char) : List Char → List (List Char)
  | [] => [[]]
  | x :: rest =>
    if x = c then [] :: splitOnChar c rest
    else
      match splitOnChar c rest with
      | [] => [[x]]
      | p :: ps => (x :: p) :: ps

/-- ASCII digit test. -/
def isDigitCh (c : Char) : Bool :=
  48 ≤ c.toNat && c.toNat ≤ 57

/-- Accumulating digit reader: all remaining characters must be ASCII digits. -/
def digitsAux (acc : ℕ) : List Char → Option ℕ
  | [] => some acc
  | c :: r => if isDigitCh c then digitsAux (acc * 10 + (c.toNat - 48)) r else none

/-- Nonempty all-digit string to its value (used by the date parser model). -/
def digitsVal? : List Char → Option ℕ
  | [] => none
  | c :: l => digitsAux 0 (c :: l)

/-- Body of a Python int literal after the sign: digits with single underscores
allowed between digits (`int("1_0") = 10`, `int("1__0")`, `int("_1")`,
`int("1_")` all raise). -/
def pyUIntAux (acc : ℕ) : List Char → Option ℕ
  | [] => some acc
  | ['_'] => none
  | '_' :: c :: rest =>
    if isDigitCh c then pyUIntAux (acc * 10 + (c.toNat - 48)) rest else none
  | c :: rest =>
    if isDigitCh c then pyUIntAux (acc * 10 + (c.toNat - 48)) rest else none

/-- Unsigned part of Python `int(str)`: at least one digit, underscores only
between digits. -/
def pyUInt? : List Char → Option ℕ
  | [] => none
  | c :: rest => if isDigitCh c then pyUIntAux (c.toNat - 48) rest else none

/-- Model of Python `int(str)` on ASCII input: strip whitespace, optional
sign, digits (with underscores).  Python additionally accepts non-ASCII
digits, which do not occur in the claims below. -/
def pyInt? (s : List Char) : Option ℤ :=
  match pyStrip s with
  | '+' :: rest => (pyUInt? rest).map fun n => (n : ℤ)
  | '-' :: rest => (pyUInt? rest).map fun n => -(n : ℤ)
  | rest => (pyUInt? rest).map fun n => (n : ℤ)

/-- Python string `<` on code-point lists (lexicographic). -/
def chLt : List Char → List Char → Bool
  | [], [] => false
  | [], _ :: _ => true
  | _ :: _, [] => false
  | a :: as, b :: bs =>
    if a < b then true
    else if b < a then false
    else chLt as bs

/-- A calendar date as held in a pandas `datetime64[ns]` column.  The numeric
bounds record that `strftime('%Y/%m/%d')` renders it with 4+2+2 digits
(`datetime64[ns]` years range over 1677–2262). -/
structure PDate where
  year : ℕ
  month : ℕ
  day : ℕ
  year_lt : year < 10000
  month_lt : month < 100
  day_lt : day < 100
deriving DecidableEq

/-- Numeric encoding of a date; on in-range dates its order is the
chronological (lexicographic year/month/day) order of `datetime64` values. -/
def dateKey (d : PDate) : ℕ :=
  (d.year * 100 + d.month) * 100 + d.day

/-- `≤` on optional sort keys with missing values greatest: pandas
`na_position='last'` under an ascending sort. -/
def optLeB {β : Type} [LinearOrder β] : Option β → Option β → Bool
  | _, none => true
  | none, some _ => false
  | some a, some b => decide (a ≤ b)

/-- One pandas cell of an object column. -/
inductive Cell where
  | null : Cell
  | str : List Char → Cell
  | date : PDate → Cell
deriving DecidableEq

/-- Digit character for a value below ten. -/
def digitCh : ℕ → Char
  | 0 => '0'
  | 1 => '1'
  | 2 => '2'
  | 3 => '3'
  | 4 => '4'
  | 5 => '5'
  | 6 => '6'
  | 7 => '7'
  | 8 => '8'
  | _ => '9'

/-- Four-digit zero-padded rendering. -/
def pad4 (n : ℕ) : List Char :=
  [digitCh (n / 1000 % 10), digitCh (n / 100 % 10), digitCh (n / 10 % 10), digitCh (n % 10)]

/-- Two-digit zero-padded rendering. -/
def pad2 (n : ℕ) : List Char :=
  [digitCh (n / 10 % 10), digitCh (n % 10)]

/-- `strftime('%Y/%m/%d')` on a timestamp (`_dt_to_str` applies it cellwise;
`NaT` stays missing). -/
def strftimeYMD (d : PDate) : List Char :=
  pad4 d.year ++ '/' :: (pad2 d.month ++ '/' :: pad2 d.day)

/-- `str(pd.Timestamp(...))`, the string pandas `astype(str)` produces for a
midnight timestamp: `YYYY-MM-DD 00:00:00`. -/
def timestampStr (d : PDate) : List Char :=
  pad4 d.year ++ '-' :: (pad2 d.month ++ '-' :: (pad2 d.day ++ " 00:00:00".data))

/-- Model of the external `pd.to_datetime(…, errors='coerce')` as applied to
the `YYYY/MM/DD` display strings produced by `_dt_to_str` (anything else in
this pipeline is missing and stays `NaT`). -/
def to_datetime? (s : List Char) : Option PDate :=
  match splitOnChar '/' s with
  | [ys, ms, ds] =>
    match digitsVal? ys, digitsVal? ms, digitsVal? ds with
    | some y, some m, some d =>
      if hy : y < 10000 then
        if hm : m < 100 then
          if hd : d < 100 then some ⟨y, m, d, hy, hm, hd⟩ else none
        else none
      else none
    | _, _, _ => none
  | _ => none

/-- `astype(str)` on one cell: `NaN ↦ "nan"`. -/
def cellAsTypeStr : Cell → List Char
  | Cell.null => "nan".data
  | Cell.str s => s
  | Cell.date d => timestampStr d

/-- `fillna('')` followed by `str(x)` on one cell, as `_parse_time_like` does. -/
def cellFillnaStr : Cell → List Char
  | Cell.null => []
  | Cell.str s => s
  | Cell.date d => timestampStr d

/-- === sort_excel.py, `担当順` (line 23): the configured assignee priority
list. === -/
def «担当順» : List String :=
  ["河内", "岩川", "杉田", "正木", "吉田", "脇本", "中本", "椙村", "北条", "上野"]

/-- The priority list as code-point lists. -/
def «担当順Data» : List (List Char) :=
  «担当順».map String.data

/-- `order = {name: i for i, name in enumerate(担当順)}` followed by
`.map(order).fillna(9999).astype(int)` on one label: position in the list if
present, else 9999.  (`担当順` has no duplicate names, so first and last
occurrence agree.) -/
def dictRank (l : List (List Char)) (s : List Char) : ℕ :=
  match l.findIdx? (fun n => n = s) with
  | some i => i
  | none => 9999

/-- One raw row of the `受諾確認票` sheet after `_read_sheet`: column names
trimmed and the two date columns parsed with `pd.to_datetime(errors='coerce')`
(`none` = `NaT`, the row is kept). -/
structure RawRow where
  «融資実行日» : Option PDate
  «金消日面談日» : Option PDate
  «形態» : Cell
  «お客様氏名» : Cell
  «物件» : Cell
  «依頼内容» : Cell
  «担当» : Cell
  «管轄» : Cell
  «立会時間» : Cell
  «立会場所» : Cell
  «立会者» : Cell
  «当日申請» : Cell
  «金消時間» : Cell
  «金消場所面談場所» : Cell
  «意思確認» : Cell
deriving DecidableEq

/-- One row of the unified output schema `COLS_OUT_ORDER`
(`['日付','形態','お客様氏名','物件','依頼内容','担当','管轄','時間','場所','確認者','申請','識別']`).
`日付` holds the `YYYY/MM/DD` display string or missing. -/
structure UnifiedRow where
  «日付» : Option (List Char)
  «形態» : Cell
  «お客様氏名» : Cell
  «物件» : Cell
  «依頼内容» : Cell
  «担当» : Cell
  «管轄» : Cell
  «時間» : Cell
  «場所» : Cell
  «確認者» : Cell
  «申請» : Cell
  «識別» : List Char
deriving DecidableEq

/-- An `Option PDate` column entry as an ascending sort key (`NaT` last). -/
def dateOptKey (o : Option PDate) : Option ℕ :=
  o.map dateKey

/-- `sort_values` on one date column, ascending, `na_position='last'`,
modelled as a stable sort (see the header note on tie order). -/
def sort_values_date (key : RawRow → Option PDate) (df : List RawRow) : List RawRow :=
  List.insertionSort (fun a b => optLeB (dateOptKey (key a)) (dateOptKey (key b)) = true) df

/-- The loan-view row map of `_make_tables` (lines 59–70): tag `識別`, rename
`融資実行日→日付, 立会時間→時間, 立会場所→場所, 立会者→確認者, 当日申請→申請`,
restrict to `COLS_OUT_ORDER`, render the date. -/
def loanRow (r : RawRow) : UnifiedRow where
  «日付» := r.«融資実行日».map strftimeYMD
  «形態» := r.«形態»
  «お客様氏名» := r.«お客様氏名»
  «物件» := r.«物件»
  «依頼内容» := r.«依頼内容»
  «担当» := r.«担当»
  «管轄» := r.«管轄»
  «時間» := r.«立会時間»
  «場所» := r.«立会場所»
  «確認者» := r.«立会者»
  «申請» := r.«当日申請»
  «識別» := "融資実行日".data

/-- The cancel-view row map of `_make_tables` (lines 73–82): rename
`金消日・面談日→日付, 金消時間→時間, 金消場所・面談場所→場所, 意思確認→確認者,
融資実行日→申請` (the `申請` column of this view holds the raw disbursement
timestamp). -/
def cancelRow (r : RawRow) : UnifiedRow where
  «日付» := r.«金消日面談日».map strftimeYMD
  «形態» := r.«形態»
  «お客様氏名» := r.«お客様氏名»
  «物件» := r.«物件»
  «依頼内容» := r.«依頼内容»
  «担当» := r.«担当»
  «管轄» := r.«管轄»
  «時間» := r.«金消時間»
  «場所» := r.«金消場所面談場所»
  «確認者» := r.«意思確認»
  «申請» :=
    match r.«融資実行日» with
    | none => Cell.null
    | some d => Cell.date d
  «識別» := "金消日・面談日".data

/-- `_make_tables` view (1): sort the raw rows by `融資実行日` (NaT last), then
tag/rename/render. -/
def «_make_tables_loan» (df : List RawRow) : List UnifiedRow :=
  (sort_values_date (fun r => r.«融資実行日») df).map loanRow

/-- `_make_tables` view (2): sort the raw rows by `金消日・面談日` (NaT last),
then tag/rename/render. -/
def «_make_tables_cancel» (df : List RawRow) : List UnifiedRow :=
  (sort_values_date (fun r => r.«金消日面談日») df).map cancelRow

/-- The ascending sort key the unifier computes for one combined row
(line 87): `pd.to_datetime(combined['日付'], errors='coerce')` on the display
string, missing last. -/
def combinedKey (u : UnifiedRow) : Option ℕ :=
  dateOptKey (u.«日付».bind to_datetime?)

/-- `_make_tables` step (3) (lines 85–91): `pd.concat([loan, cancel])` then
`sort_values` on the parsed `日付` (missing last); modelled as a stable sort
(header note). -/
def «_make_tables_combined» (df : List RawRow) : List UnifiedRow :=
  List.insertionSort (fun a b => optLeB (combinedKey a) (combinedKey b) = true)
    («_make_tables_loan» df ++ «_make_tables_cancel» df)

/-- `_make_tables` (lines 57–93). -/
def «_make_tables» (df : List RawRow) :
    List UnifiedRow × List UnifiedRow × List UnifiedRow :=
  («_make_tables_loan» df, «_make_tables_cancel» df, «_make_tables_combined» df)

/-- The inner `tosec` of `_parse_time_like` (lines 103–115) on the
stringified cell: strip; empty is missing; split on `:`; `h = int(parts[0])`,
`m = int(parts[1])` if present else 0, `s = int(parts[2])` if present else 0
(components beyond the third are ignored); any `int` failure is missing. -/
def tosec (x : List Char) : Option ℤ :=
  let t := pyStrip x
  if t = [] then none
  else
    match splitOnChar ':' t with
    | [] => none
    | p0 :: rest =>
      match pyInt? p0 with
      | none => none
      | some h =>
        match (match rest with | [] => some 0 | p1 :: _ => pyInt? p1) with
        | none => none
        | some m =>
          match (match rest with | _ :: p2 :: _ => pyInt? p2 | _ => some 0) with
          | none => none
          | some s => some (h * 3600 + m * 60 + s)

/-- `_parse_time_like` (lines 95–116) on one cell: `fillna('')`, `str(x)`,
`tosec`; `NaN` result models the missing time. -/
def «_parse_time_like» (c : Cell) : Option ℤ :=
  tosec (cellFillnaStr c)

/-- The three sort keys `_k1, _k2, _k3` that `_sort_for_date_sheet` assigns
to one row (lines 126–133). -/
structure DKey where
  k1 : List Char
  k2 : ℕ
  k3 : Option ℤ
deriving DecidableEq

/-- Keys of one partition row: `識別` as string, `担当` rank in `担当順`
(unlisted 9999), parsed `時間` seconds. -/
def dkey (r : UnifiedRow) : DKey :=
  ⟨r.«識別», dictRank «担当順Data» (cellAsTypeStr r.«担当»), «_parse_time_like» r.«時間»⟩

/-- Lexicographic `≤` on the three keys as pandas
`sort_values(by=['_k1','_k2','_k3'], ascending=[True, True, True])` compares
them: strings by code points, ranks numerically, times numerically with
missing last. -/
def dkeyLe (a b : DKey) : Bool :=
  if chLt a.k1 b.k1 then true
  else if chLt b.k1 a.k1 then false
  else if a.k2 < b.k2 then true
  else if b.k2 < a.k2 then false
  else optLeB a.k3 b.k3

/-- `_sort_for_date_sheet` (lines 118–138): assign `_k1,_k2,_k3` (the pair's
second component), sort stably by them (pandas multi-column `lexsort`,
all ascending), drop the key columns (the final projection). -/
def «_sort_for_date_sheet» (l : List UnifiedRow) : List UnifiedRow :=
  (List.insertionSort (fun p q : UnifiedRow × DKey => dkeyLe p.2 q.2 = true)
    (l.map (fun r => (r, dkey r)))).map Prod.fst

/-- First-occurrence-order deduplication, as `Series.unique()` returns. -/
def uniqueAux {α : Type} [DecidableEq α] (seen : List α) : List α → List α
  | [] => []
  | a :: l => if a ∈ seen then uniqueAux seen l else a :: uniqueAux (a :: seen) l

/-- `combined['日付'].dropna().unique()` (line 149): the distinct non-missing
date strings in first-occurrence order. -/
def partition_dates (combined : List UnifiedRow) : List (List Char) :=
  uniqueAux [] (combined.filterMap (fun u => u.«日付»))

/-- `combined[combined['日付'] == date]` (line 150): the per-date partition. -/
def partition_for (combined : List UnifiedRow) (d : List Char) : List UnifiedRow :=
  combined.filter (fun u => u.«日付» = some d)

/-- `str(date).replace('/','-')` (line 152): the per-date sheet name. -/
def sheetName (d : List Char) : List Char :=
  d.map (fun c => if c = '/' then '-' else c)

/-- The per-date sheets `_write_excel` emits (lines 148–153): one named,
`_sort_for_date_sheet`-sorted partition per distinct non-missing date. -/
def date_sheets (combined : List UnifiedRow) : List (List Char × List UnifiedRow) :=
  (partition_dates combined).map
    (fun d => (sheetName d, «_sort_for_date_sheet» (partition_for combined d)))

/-- A concrete date, 2024-06-01. -/
def d20240601 : PDate := ⟨2024, 6, 1, by omega, by omega, by omega⟩

/-- A concrete date, 2024-05-02. -/
def d20240502 : PDate := ⟨2024, 5, 2, by omega, by omega, by omega⟩

/-- A concrete unified row of the 2024/06/01 partition tagged `融資実行日`. -/
def c1LoanRow : UnifiedRow :=
  ⟨some (strftimeYMD d20240601), Cell.null, Cell.null, Cell.null, Cell.null,
    Cell.str "河内".data, Cell.null, Cell.str "09:00".data, Cell.null, Cell.null,
    Cell.null, "融資実行日".data⟩

/-- The same concrete row tagged `金消日・面談日`: identical `担当` and `時間`,
so the per-date sort ranks the pair by `識別` alone. -/
def c1CancelRow : UnifiedRow :=
  ⟨some (strftimeYMD d20240601), Cell.null, Cell.null, Cell.null, Cell.null,
    Cell.str "河内".data, Cell.null, Cell.str "09:00".data, Cell.null, Cell.null,
    Cell.null, "金消日・面談日".data⟩

/-- A raw row with both date cells unparseable (`NaT` after `_read_sheet`). -/
def rawNull : RawRow :=
  ⟨none, none, Cell.null, Cell.null, Cell.null, Cell.null, Cell.null, Cell.null,
    Cell.null, Cell.null, Cell.null, Cell.null, Cell.null, Cell.null, Cell.null⟩

/-- A raw row with a valid disbursement date and no contract date. -/
def rawA : RawRow :=
  ⟨some d20240601, none, Cell.null, Cell.null, Cell.null, Cell.null,
    Cell.str "杉田".data, Cell.null, Cell.str "10:00".data, Cell.null, Cell.null,
    Cell.null, Cell.null, Cell.null, Cell.null⟩

/-- Number of raw rows whose given date column parsed (`notna`). -/
def validDateCount (key : RawRow → Option PDate) (df : List RawRow) : ℕ :=
  (df.filter (fun r => (key r).isSome)).length

/-! ### Order lemmas for the sort keys -/

theorem optLeB_refl {β : Type} [LinearOrder β] : ∀ a : Option β, optLeB a a = true
  | none => rfl
  | some a => by simp [optLeB]

theorem optLeB_total {β : Type} [LinearOrder β] (a b : Option β) :
    optLeB a b = true ∨ optLeB b a = true := by
  cases a <;> cases b <;> simp [optLeB]
  exact le_total _ _

theorem optLeB_trans {β : Type} [LinearOrder β] {a b c : Option β} :
    optLeB a b = true → optLeB b c = true → optLeB a c = true := by
  cases a <;> cases b <;> cases c <;> simp [optLeB]
  exact fun h1 h2 => le_trans h1 h2

theorem optLeB_none_left {β : Type} [LinearOrder β] {b : Option β} :
    optLeB none b = true → b = none := by
  cases b <;> simp [optLeB]

theorem chLt_irrefl : ∀ a, chLt a a = false
  | [] => rfl
  | x :: a => by simp [chLt, lt_irrefl, chLt_irrefl a]

theorem chLt_asymm : ∀ a b, chLt a b = true → chLt b a = false
  | [], [] => by simp [chLt]
  | [], _ :: _ => by simp [chLt]
  | _ :: _, [] => by simp [chLt]
  | a :: as, b :: bs => by
    by_cases h1 : a < b
    · simp [chLt, h1, lt_asymm h1]
    · by_cases h2 : b < a
      · simp [chLt, h1, h2]
      · simp only [chLt, if_neg h1, if_neg h2]
        exact chLt_asymm as bs

theorem chLt_trans : ∀ a b c, chLt a b = true → chLt b c = true → chLt a c = true
  | [], _ :: _, [] => by simp [chLt]
  | [], [], _ :: _ => by simp [chLt]
  | [], _ :: _, _ :: _ => by simp [chLt]
  | _, [], [] => by simp [chLt]
  | _ :: _, _ :: _, [] => by simp [chLt]
  | _ :: _, [], _ :: _ => by simp [chLt]
  | a :: as, b :: bs, c :: cs => by
    by_cases h1 : a < b
    · by_cases h2 : b < c
      · simp [chLt, h1, h2, lt_trans h1 h2]
      · by_cases h3 : c < b
        · simp [chLt, h2, h3]
        · have hbc : b = c := le_antisymm (le_of_not_lt h3) (le_of_not_lt h2)
          subst hbc
          simp [chLt, h1]
    · by_cases h2 : b < a
      · simp [chLt, h1, h2]
      · have hab : a = b := le_antisymm (le_of_not_lt h2) (le_of_not_lt h1)
        subst hab
        by_cases h3 : a < c
        · simp [chLt, h3]
        · by_cases h4 : c < a
          · simp [chLt, h3, h4]
          · simp only [chLt, if_neg h1, if_neg h2, if_neg h3, if_neg h4]
            exact chLt_trans as bs cs

theorem chLt_eq_of_not : ∀ a b, chLt a b = false → chLt b a = false → a = b
  | [], [], _, _ => rfl
  | [], _ :: _, h, _ => by simp [chLt] at h
  | _ :: _, [], _, h => by simp [chLt] at h
  | a :: as, b :: bs, h, h' => by
    by_cases h1 : a < b
    · simp [chLt, h1] at h
    · by_cases h2 : b < a
      · simp [chLt, h2, h1] at h'
      · have hab : a = b := le_antisymm (le_of_not_lt h2) (le_of_not_lt h1)
        subst hab
        simp only [chLt, if_neg h1, if_neg h2] at h h'
        rw [chLt_eq_of_not as bs h h']

theorem dkeyLe_iff (a b : DKey) :
    dkeyLe a b = true ↔
      chLt a.k1 b.k1 = true ∨
        (a.k1 = b.k1 ∧ (a.k2 < b.k2 ∨ (a.k2 = b.k2 ∧ optLeB a.k3 b.k3 = true))) := by
  by_cases h1 : chLt a.k1 b.k1 = true
  · simp [dkeyLe, h1]
  · by_cases h2 : chLt b.k1 a.k1 = true
    · have hne : a.k1 ≠ b.k1 := by
        intro he
        rw [he, chLt_irrefl] at h2
        exact Bool.false_ne_true h2
      simp [dkeyLe, h1, h2, hne]
    · have he : a.k1 = b.k1 :=
        chLt_eq_of_not _ _ (Bool.eq_false_iff.mpr h1) (Bool.eq_false_iff.mpr h2)
      rcases Nat.lt_trichotomy a.k2 b.k2 with h3 | h3 | h3
      · simp [dkeyLe, h1, h2, he, h3, chLt_irrefl]
      · simp [dkeyLe, h1, h2, he, h3, lt_irrefl, chLt_irrefl]
      · simp [dkeyLe, h1, h2, he, Nat.lt_asymm h3, h3, Nat.ne_of_gt h3, chLt_irrefl]

theorem dkeyLe_refl (a : DKey) : dkeyLe a a = true := by
  simp [dkeyLe, chLt_irrefl, optLeB_refl]

theorem dkeyLe_total (a b : DKey) : dkeyLe a b = true ∨ dkeyLe b a = true := by
  rw [dkeyLe_iff, dkeyLe_iff]
  by_cases h1 : chLt a.k1 b.k1 = true
  · exact Or.inl (Or.inl h1)
  · by_cases h2 : chLt b.k1 a.k1 = true
    · exact Or.inr (Or.inl h2)
    · have he : a.k1 = b.k1 :=
        chLt_eq_of_not _ _ (Bool.eq_false_iff.mpr h1) (Bool.eq_false_iff.mpr h2)
      rcases Nat.lt_trichotomy a.k2 b.k2 with h3 | h3 | h3
      · exact Or.inl (Or.inr ⟨he, Or.inl h3⟩)
      · rcases optLeB_total a.k3 b.k3 with h4 | h4
        · exact Or.inl (Or.inr ⟨he, Or.inr ⟨h3, h4⟩⟩)
        · exact Or.inr (Or.inr ⟨he.symm, Or.inr ⟨h3.symm, h4⟩⟩)
      · exact Or.inr (Or.inr ⟨he.symm, Or.inl h3⟩)

theorem dkeyLe_trans {a b c : DKey} (hab : dkeyLe a b = true) (hbc : dkeyLe b c = true) :
    dkeyLe a c = true := by
  rw [dkeyLe_iff] at hab hbc ⊢
  rcases hab with h1 | ⟨e1, h1⟩
  · rcases hbc with h2 | ⟨e2, _⟩
    · exact Or.inl (chLt_trans _ _ _ h1 h2)
    · exact Or.inl (e2 ▸ h1)
  · rcases hbc with h2 | ⟨e2, h2⟩
    · exact Or.inl (e1 ▸ h2)
    · refine Or.inr ⟨e1.trans e2, ?_⟩
      rcases h1 with h1 | ⟨e3, h1⟩
      · rcases h2 with h2 | ⟨e4, _⟩
        · exact Or.inl (Nat.lt_trans h1 h2)
        · exact Or.inl (e4 ▸ h1)
      · rcases h2 with h2 | ⟨e4, h2⟩
        · exact Or.inl (e3 ▸ h2)
        · exact Or.inr ⟨e3.trans e4, optLeB_trans h1 h2⟩

/-! ### Generic facts about the modelled `sort_values` (stable insertion sort
by a computed key) -/

theorem sorted_insertionSort_key {α κ : Type} (key : α → κ) (le : κ → κ → Bool)
    (htot : ∀ x y, le x y = true ∨ le y x = true)
    (htrans : ∀ x y z, le x y = true → le y z = true → le x z = true)
    (l : List α) :
    List.Sorted (fun a b => le (key a) (key b) = true)
      (List.insertionSort (fun a b => le (key a) (key b) = true) l) := by
  haveI : IsTotal α (fun a b => le (key a) (key b) = true) := ⟨fun a b => htot _ _⟩
  haveI : IsTrans α (fun a b => le (key a) (key b) = true) := ⟨fun a b c => htrans _ _ _⟩
  exact List.sorted_insertionSort _ l

theorem filter_key_orderedInsert {α κ : Type} [DecidableEq κ] (key : α → κ)
    (le : κ → κ → Bool) (hrefl : ∀ k, le k k = true) (a : α) (l : List α) (k : κ) :
    (List.orderedInsert (fun x y => le (key x) (key y) = true) a l).filter
        (fun x => decide (key x = k))
      = if key a = k
          then a :: l.filter (fun x => decide (key x = k))
          else l.filter (fun x => decide (key x = k)) := by
  induction l with
  | nil =>
    by_cases hak : key a = k <;> simp [List.orderedInsert, hak]
  | cons b l ih =>
    simp only [List.orderedInsert]
    by_cases hle : le (key a) (key b) = true
    · rw [if_pos hle]
      by_cases hak : key a = k <;> simp [List.filter_cons, hak]
    · rw [if_neg hle]
      have hne : key b ≠ key a := by
        intro he
        rw [he] at hle
        exact hle (hrefl (key a))
      by_cases hbk : key b = k
      · have hak : key a ≠ k := by
          intro h
          exact hne (hbk.trans h.symm)
        simp [List.filter_cons, hbk, hak, ih]
      · by_cases hak : key a = k <;> simp [List.filter_cons, hbk, hak, ih]

theorem filter_key_insertionSort {α κ : Type} [DecidableEq κ] (key : α → κ)
    (le : κ → κ → Bool) (hrefl : ∀ k, le k k = true) (l : List α) (k : κ) :
    (List.insertionSort (fun x y => le (key x) (key y) = true) l).filter
        (fun x => decide (key x = k))
      = l.filter (fun x => decide (key x = k)) := by
  induction l with
  | nil => rfl
  | cons a l ih =>
    simp only [List.insertionSort]
    rw [filter_key_orderedInsert key le hrefl]
    by_cases hak : key a = k <;> simp [List.filter_cons, hak, ih]

theorem sorted_pairwise_null_last {α κ : Type} [LinearOrder κ]
    {key : α → Option κ} {l : List α}
    (h : List.Sorted (fun a b => optLeB (key a) (key b) = true) l) :
    List.Pairwise (fun a b => key a = none → key b = none) l := by
  refine h.imp ?_
  intro a b hab ha
  rw [ha] at hab
  exact optLeB_none_left hab

theorem map_fst_filter_key {α κ : Type} [DecidableEq κ] (key : α → κ) (k : κ) :
    ∀ M : List (α × κ), (∀ q ∈ M, q.2 = key q.1) →
      (M.map Prod.fst).filter (fun x => decide (key x = k))
        = (M.filter (fun q => decide (q.2 = k))).map Prod.fst
  | [], _ => rfl
  | q :: M, hM => by
    have hq : q.2 = key q.1 := hM q (List.mem_cons_self q M)
    have hM' : ∀ p ∈ M, p.2 = key p.1 := fun p hp => hM p (List.mem_cons_of_mem q hp)
    by_cases hk : key q.1 = k
    · simp [List.filter_cons, hk, hq, map_fst_filter_key key k M hM']
    · simp [List.filter_cons, hk, hq, map_fst_filter_key key k M hM']

theorem mem_uniqueAux {α : Type} [DecidableEq α] (a : α) :
    ∀ (l seen : List α), a ∈ uniqueAux seen l ↔ (a ∈ l ∧ a ∉ seen)
  | [], seen => by simp [uniqueAux]
  | b :: l, seen => by
    by_cases hb : b ∈ seen
    · rw [uniqueAux, if_pos hb, mem_uniqueAux a l seen]
      constructor
      · exact fun ⟨h1, h2⟩ => ⟨List.mem_cons_of_mem b h1, h2⟩
      · rintro ⟨h1, h2⟩
        rcases List.mem_cons.mp h1 with rfl | h1
        · exact absurd hb h2
        · exact ⟨h1, h2⟩
    · rw [uniqueAux, if_neg hb]
      by_cases hab : a = b
      · subst hab
        simp [hb]
      · rw [List.mem_cons, mem_uniqueAux a l (b :: seen)]
        simp [hab, List.mem_cons]

/-! ### Rendering and re-parsing of display dates -/

theorem digitCh_toNat {k : ℕ} (h : k < 10) : (digitCh k).toNat = 48 + k := by
  interval_cases k <;> rfl

theorem isDigitCh_digitCh {k : ℕ} (h : k < 10) : isDigitCh (digitCh k) = true := by
  interval_cases k <;> decide

theorem not_mem_pad4 {c : Char} (hc : isDigitCh c = false) (n : ℕ) : c ∉ pad4 n := by
  have hd : ∀ k : ℕ, k < 10 → c ≠ digitCh k := by
    intro k hk he
    rw [he, isDigitCh_digitCh hk] at hc
    exact Bool.true_eq_false.mp hc
  intro hmem
  simp only [pad4, List.mem_cons, List.not_mem_nil, or_false] at hmem
  rcases hmem with h | h | h | h <;>
    exact hd _ (Nat.mod_lt _ (by omega)) h

theorem not_mem_pad2 {c : Char} (hc : isDigitCh c = false) (n : ℕ) : c ∉ pad2 n := by
  have hd : ∀ k : ℕ, k < 10 → c ≠ digitCh k := by
    intro k hk he
    rw [he, isDigitCh_digitCh hk] at hc
    exact Bool.true_eq_false.mp hc
  intro hmem
  simp only [pad2, List.mem_cons, List.not_mem_nil, or_false] at hmem
  rcases hmem with h | h <;>
    exact hd _ (Nat.mod_lt _ (by omega)) h

theorem splitOnChar_of_not_mem {c : Char} : ∀ {a : List Char}, c ∉ a → splitOnChar c a = [a]
  | [], _ => rfl
  | x :: a, h => by
    have hx : ¬x = c := fun he => h (he ▸ List.mem_cons_self x a)
    have ha : c ∉ a := fun hm => h (List.mem_cons_of_mem x hm)
    simp only [splitOnChar, splitOnChar_of_not_mem ha, if_neg hx]

theorem splitOnChar_append_cons {c : Char} :
    ∀ {a : List Char}, c ∉ a → ∀ rest : List Char,
      splitOnChar c (a ++ c :: rest) = a :: splitOnChar c rest
  | [], _, rest => by simp [splitOnChar]
  | x :: a, h, rest => by
    have hx : ¬x = c := fun he => h (he ▸ List.mem_cons_self x a)
    have ha : c ∉ a := fun hm => h (List.mem_cons_of_mem x hm)
    show splitOnChar c (x :: (a ++ c :: rest)) = (x :: a) :: splitOnChar c rest
    rw [splitOnChar, splitOnChar_append_cons ha rest]
    simp [hx]

theorem digitsVal?_pad4 {n : ℕ} (h : n < 10000) : digitsVal? (pad4 n) = some n := by
  have h3 : n / 1000 % 10 < 10 := Nat.mod_lt _ (by omega)
  have h2 : n / 100 % 10 < 10 := Nat.mod_lt _ (by omega)
  have h1 : n / 10 % 10 < 10 := Nat.mod_lt _ (by omega)
  have h0 : n % 10 < 10 := Nat.mod_lt _ (by omega)
  simp only [pad4, digitsVal?, digitsAux, isDigitCh_digitCh h3, isDigitCh_digitCh h2,
    isDigitCh_digitCh h1, isDigitCh_digitCh h0, if_true, digitCh_toNat h3, digitCh_toNat h2,
    digitCh_toNat h1, digitCh_toNat h0]
  congr 1
  omega

theorem digitsVal?_pad2 {n : ℕ} (h : n < 100) : digitsVal? (pad2 n) = some n := by
  have h1 : n / 10 % 10 < 10 := Nat.mod_lt _ (by omega)
  have h0 : n % 10 < 10 := Nat.mod_lt _ (by omega)
  simp only [pad2, digitsVal?, digitsAux, isDigitCh_digitCh h1, isDigitCh_digitCh h0, if_true,
    digitCh_toNat h1, digitCh_toNat h0]
  congr 1
  omega

/-- Round trip: the `YYYY/MM/DD` display string of a date parses back to the
same date. -/
theorem to_datetime?_strftimeYMD (d : PDate) : to_datetime? (strftimeYMD d) = some d := by
  obtain ⟨y, m, dd, hy, hm, hd⟩ := d
  have hsplit : splitOnChar '/' (strftimeYMD ⟨y, m, dd, hy, hm, hd⟩)
      = [pad4 y, pad2 m, pad2 dd] := by
    show splitOnChar '/' (pad4 y ++ '/' :: (pad2 m ++ '/' :: pad2 dd)) = _
    rw [splitOnChar_append_cons (not_mem_pad4 (by decide) y),
      splitOnChar_append_cons (not_mem_pad2 (by decide) m),
      splitOnChar_of_not_mem (not_mem_pad2 (by decide) dd)]
  simp only [to_datetime?, hsplit, digitsVal?_pad4 hy, digitsVal?_pad2 hm, digitsVal?_pad2 hd]
  simp [hy, hm, hd]

/-! ### The priority-order resolver -/

theorem dictRank_spec_mem {l : List (List Char)} {s : List Char} (h : s ∈ l) :
    dictRank l s < l.length ∧ l[dictRank l s]? = some s ∧
      ∀ j, j < dictRank l s → l[j]? ≠ some s := by
  obtain ⟨i, hi⟩ : ∃ i, l.findIdx? (fun n => n = s) = some i := by
    rcases hfi : l.findIdx? (fun n => n = s) with _ | i
    · rw [List.findIdx?_eq_none_iff] at hfi
      have := hfi s h
      simp at this
    · exact ⟨i, rfl⟩
  have hrank : dictRank l s = i := by simp [dictRank, hi]
  rw [List.findIdx?_eq_some_iff_getElem] at hi
  obtain ⟨hlt, hp, hprev⟩ := hi
  refine ⟨hrank ▸ hlt, ?_, ?_⟩
  · rw [hrank, List.getElem?_eq_getElem hlt]
    simp only [decide_eq_true_eq] at hp
    rw [hp]
  · intro j hj hcontra
    rw [hrank] at hj
    have hjl : j < l.length := Nat.lt_trans hj hlt
    rw [List.getElem?_eq_getElem hjl] at hcontra
    have hne := hprev j hj
    simp only [decide_eq_true_eq] at hne
    exact hne (by injection hcontra)

theorem dictRank_not_mem {l : List (List Char)} {s : List Char} (h : s ∉ l) :
    dictRank l s = 9999 := by
  have hfi : l.findIdx? (fun n => n = s) = none := by
    rw [List.findIdx?_eq_none_iff]
    intro x hx
    simp only [decide_eq_false_iff_not]
    exact fun he => h (he ▸ hx)
  simp [dictRank, hfi]

/-! ### Claim theorems -/

/-- C1: the per-date sort orders the `識別` (SourceKind) key **ascending** —
`'融資実行日' < '金消日・面談日'` as Python strings, and the smaller-sorting
label comes first — contradicting the claimed (and docstring's) descending
order; evaluation of `_sort_for_date_sheet` at the failing partition. -/
theorem C1_sort_for_date_sheet_ascending :
    «_sort_for_date_sheet» [c1CancelRow, c1LoanRow] = [c1LoanRow, c1CancelRow] ∧
    chLt "融資実行日".data "金消日・面談日".data = true := by
  exact ⟨by decide, by decide⟩

/-- C3 counterexample: a single raw row with both date cells unparseable
yields a unified set of 2 records, while the claimed count
(valid disbursement dates + valid contract dates) is 0. -/
theorem C3_counterexample_null_row :
    («_make_tables_combined» [rawNull]).length = 2 ∧
    validDateCount (fun r => r.«融資実行日») [rawNull]
        + validDateCount (fun r => r.«金消日面談日») [rawNull] = 0 ∧
    («_make_tables_combined» [rawNull]).length ≠
      validDateCount (fun r => r.«融資実行日») [rawNull]
        + validDateCount (fun r => r.«金消日面談日») [rawNull] := by
  exact ⟨by decide, by decide, by decide⟩

/-- C3 (amended): the unified set's size is the disbursement view's size plus
the contract view's size, and each view keeps **every** raw row (rows with
unparseable dates are retained with a null date), so the unified size is
twice the raw row count. -/
theorem C3_unified_size (df : List RawRow) :
    («_make_tables_combined» df).length
        = («_make_tables_loan» df).length + («_make_tables_cancel» df).length ∧
    («_make_tables_loan» df).length = df.length ∧
    («_make_tables_cancel» df).length = df.length := by
  refine ⟨?_, ?_, ?_⟩
  · simp [«_make_tables_combined», List.length_insertionSort]
  · simp [«_make_tables_loan», sort_values_date, List.length_insertionSort]
  · simp [«_make_tables_cancel», sort_values_date, List.length_insertionSort]

/-- C5: the priority-order resolver returns a listed label's zero-based
position in the configured `担当順` list (first index holding the label, no
earlier index does), and every unlisted label gets the constant rank 9999,
strictly greater than every listed position. -/
theorem C5_priority_resolver (s : List Char) :
    (s ∈ «担当順Data» →
      dictRank «担当順Data» s < «担当順Data».length ∧
      «担当順Data»[dictRank «担当順Data» s]? = some s ∧
      ∀ j, j < dictRank «担当順Data» s → «担当順Data»[j]? ≠ some s) ∧
    (s ∉ «担当順Data» →
      dictRank «担当順Data» s = 9999 ∧
      ∀ i, i < «担当順Data».length → i < dictRank «担当順Data» s) := by
  constructor
  · exact fun h => dictRank_spec_mem h
  · intro h
    refine ⟨dictRank_not_mem h, fun i hi => ?_⟩
    rw [dictRank_not_mem h]
    have hlen : «担当順Data».length = 10 := rfl
    omega

/-- Witness for C5 at the listed name 杉田 and the unlisted name 未登録. -/
theorem C5_priority_resolver_witness :
    «担当順Data»[dictRank «担当順Data» "杉田".data]? = some "杉田".data ∧
    dictRank «担当順Data» "未登録".data = 9999 := by
  exact ⟨((C5_priority_resolver "杉田".data).1 (by decide)).2.1,
    ((C5_priority_resolver "未登録".data).2 (by decide)).1⟩

/-- C8: the per-date three-key sort is stable — for every key value, the
records carrying exactly that (SourceKind, assignee-rank, parsed-time) key
triple appear in the sorted partition in the same order as in the input
partition (which is a filter of the unified sequence). -/
theorem C8_sort_for_date_sheet_stable (l : List UnifiedRow) (k : DKey) :
    («_sort_for_date_sheet» l).filter (fun r => dkey r = k)
      = l.filter (fun r => dkey r = k) := by
  unfold «_sort_for_date_sheet»
  have hmemL : ∀ q ∈ l.map (fun r => (r, dkey r)), q.2 = dkey q.1 := by
    intro q hq
    obtain ⟨r, _, rfl⟩ := List.mem_map.mp hq
    rfl
  have hmemL' : ∀ q ∈ List.insertionSort (fun p q : UnifiedRow × DKey => dkeyLe p.2 q.2 = true)
      (l.map (fun r => (r, dkey r))), q.2 = dkey q.1 := by
    intro q hq
    exact hmemL q ((List.perm_insertionSort _ _).mem_iff.mp hq)
  rw [map_fst_filter_key dkey k _ hmemL',
    filter_key_insertionSort Prod.snd dkeyLe dkeyLe_refl,
    ← map_fst_filter_key dkey k _ hmemL]
  simp [List.map_map, Function.comp_def]

/-- C10: the per-date sorter returns a permutation of its input rows — the
records themselves (hence every field) are untouched; the three temporary key
columns live only in the paired second component, which the final projection
drops. -/
theorem C10_sort_for_date_sheet_perm (l : List UnifiedRow) :
    List.Perm («_sort_for_date_sheet» l) l := by
  unfold «_sort_for_date_sheet»
  have h := (List.perm_insertionSort
    (fun p q : UnifiedRow × DKey => dkeyLe p.2 q.2 = true)
    (l.map (fun r => (r, dkey r)))).map Prod.fst
  simpa [List.map_map, Function.comp_def] using h

/-! ### Helpers shared by the unifier / partition claims -/

theorem combinedKey_of_date {u : UnifiedRow} {d : PDate}
    (h : u.«日付» = some (strftimeYMD d)) : combinedKey u = some (dateKey d) := by
  simp [combinedKey, h, to_datetime?_strftimeYMD, dateOptKey]

theorem combined_perm (df : List RawRow) :
    List.Perm («_make_tables_combined» df)
      («_make_tables_loan» df ++ «_make_tables_cancel» df) :=
  List.perm_insertionSort _ _

theorem combined_sorted (df : List RawRow) :
    List.Sorted (fun a b => optLeB (combinedKey a) (combinedKey b) = true)
      («_make_tables_combined» df) :=
  sorted_insertionSort_key combinedKey optLeB optLeB_total
    (fun _ _ _ h1 h2 => optLeB_trans h1 h2) _

theorem combined_null_last (df : List RawRow) :
    List.Pairwise (fun a b => combinedKey a = none → combinedKey b = none)
      («_make_tables_combined» df) :=
  sorted_pairwise_null_last (combined_sorted df)

theorem combined_mem_cases (df : List RawRow) (u : UnifiedRow)
    (hu : u ∈ «_make_tables_combined» df) :
    u.«日付» = none ∨
      ∃ d : PDate, u.«日付» = some (strftimeYMD d) ∧ combinedKey u = some (dateKey d) := by
  have hmem := (combined_perm df).mem_iff.mp hu
  rcases List.mem_append.mp hmem with h | h
  · obtain ⟨r, _, rfl⟩ := List.mem_map.mp h
    rcases hrd : r.«融資実行日» with _ | d
    · left
      simp [loanRow, hrd]
    · right
      refine ⟨d, by simp [loanRow, hrd], combinedKey_of_date (by simp [loanRow, hrd])⟩
  · obtain ⟨r, _, rfl⟩ := List.mem_map.mp h
    rcases hrd : r.«金消日面談日» with _ | d
    · left
      simp [cancelRow, hrd]
    · right
      refine ⟨d, by simp [cancelRow, hrd], combinedKey_of_date (by simp [cancelRow, hrd])⟩

theorem perm_sort_for_date_sheet (l : List UnifiedRow) :
    List.Perm («_sort_for_date_sheet» l) l := by
  unfold «_sort_for_date_sheet»
  have h := (List.perm_insertionSort
    (fun p q : UnifiedRow × DKey => dkeyLe p.2 q.2 = true)
    (l.map (fun r => (r, dkey r)))).map Prod.fst
  simpa [List.map_map, Function.comp_def] using h

/-- C6: the unified set is a re-sort of the concatenation
(disbursement view first, then contract view): it is a permutation of that
concatenation, sorted ascending by the calendar value parsed back from the
`日付` display string (comparison only — rows are unchanged, so the stored
field stays the display string), with every row whose parsed date is missing
after every row with a valid date; and every row's `日付` is either the null
sentinel or the rendered display string of the date the comparison used. -/
theorem C6_unifier_concat_resort (df : List RawRow) :
    List.Perm («_make_tables_combined» df)
        («_make_tables_loan» df ++ «_make_tables_cancel» df) ∧
    List.Sorted (fun a b => optLeB (combinedKey a) (combinedKey b) = true)
      («_make_tables_combined» df) ∧
    List.Pairwise (fun a b => combinedKey a = none → combinedKey b = none)
      («_make_tables_combined» df) ∧
    ∀ u, u ∈ «_make_tables_combined» df →
      u.«日付» = none ∨
        ∃ d : PDate, u.«日付» = some (strftimeYMD d) ∧ combinedKey u = some (dateKey d) :=
  ⟨combined_perm df, combined_sorted df, combined_null_last df, combined_mem_cases df⟩

/-- Witness for C6 at a one-row raw set with a valid disbursement date. -/
theorem C6_unifier_concat_resort_witness :
    (loanRow rawA).«日付» = some (strftimeYMD d20240601) ∧
    combinedKey (loanRow rawA) = some (dateKey d20240601) := by
  have h := (C6_unifier_concat_resort [rawA]).2.2.2 (loanRow rawA) (by decide)
  rcases h with h | ⟨d, hd, hk⟩
  · exact absurd h (by decide)
  · have hdd : d = d20240601 := by
      have := hd.symm.trans (show (loanRow rawA).«日付» = some (strftimeYMD d20240601) by decide)
      have h2 := to_datetime?_strftimeYMD d
      rw [Option.some_inj.mp this] at h2
      rw [to_datetime?_strftimeYMD d20240601] at h2
      exact (Option.some_inj.mp h2).symm
    subst hdd
    exact ⟨hd, hk⟩

/-- C9: a raw row whose date cell failed to parse — either the disbursement
date (loan view side) or the contract/interview date (cancel view side) — is
retained: each per-source view keeps every raw row, the row appears in its
view and in the unified set with the null date sentinel, null-key rows sit
after every valid-date row in the unified order, and no per-date partition
contains the row (and nothing errors: the pipeline is total). -/
theorem C9_unparseable_date_retained (df : List RawRow) (r : RawRow)
    (hr : r ∈ df) :
    (r.«融資実行日» = none →
      («_make_tables_loan» df).length = df.length ∧
      loanRow r ∈ «_make_tables_loan» df ∧
      (loanRow r).«日付» = none ∧
      loanRow r ∈ «_make_tables_combined» df ∧
      List.Pairwise (fun a b => combinedKey a = none → combinedKey b = none)
        («_make_tables_combined» df) ∧
      ∀ d ∈ partition_dates («_make_tables_combined» df),
        loanRow r ∉ partition_for («_make_tables_combined» df) d) ∧
    (r.«金消日面談日» = none →
      («_make_tables_cancel» df).length = df.length ∧
      cancelRow r ∈ «_make_tables_cancel» df ∧
      (cancelRow r).«日付» = none ∧
      cancelRow r ∈ «_make_tables_combined» df ∧
      List.Pairwise (fun a b => combinedKey a = none → combinedKey b = none)
        («_make_tables_combined» df) ∧
      ∀ d ∈ partition_dates («_make_tables_combined» df),
        cancelRow r ∉ partition_for («_make_tables_combined» df) d) := by
  constructor
  · intro hnd
    have hmemsort : r ∈ sort_values_date (fun x => x.«融資実行日») df :=
      (List.perm_insertionSort _ _).mem_iff.mpr hr
    have hmemloan : loanRow r ∈ «_make_tables_loan» df :=
      List.mem_map.mpr ⟨r, hmemsort, rfl⟩
    refine ⟨?_, hmemloan, by simp [loanRow, hnd], ?_, combined_null_last df, ?_⟩
    · simp [«_make_tables_loan», sort_values_date, List.length_insertionSort]
    · exact (combined_perm df).mem_iff.mpr (List.mem_append.mpr (Or.inl hmemloan))
    · intro d _ hmem
      have hfil := (List.mem_filter.mp hmem).2
      simp [loanRow, hnd] at hfil
  · intro hnd
    have hmemsort : r ∈ sort_values_date (fun x => x.«金消日面談日») df :=
      (List.perm_insertionSort _ _).mem_iff.mpr hr
    have hmemcancel : cancelRow r ∈ «_make_tables_cancel» df :=
      List.mem_map.mpr ⟨r, hmemsort, rfl⟩
    refine ⟨?_, hmemcancel, by simp [cancelRow, hnd], ?_, combined_null_last df, ?_⟩
    · simp [«_make_tables_cancel», sort_values_date, List.length_insertionSort]
    · exact (combined_perm df).mem_iff.mpr (List.mem_append.mpr (Or.inr hmemcancel))
    · intro d _ hmem
      have hfil := (List.mem_filter.mp hmem).2
      simp [cancelRow, hnd] at hfil

/-- Witness for C9 at a two-row raw set whose first row has neither a
parseable disbursement date nor a parseable contract date, exercising both
per-source views. -/
theorem C9_unparseable_date_retained_witness :
    (loanRow rawNull).«日付» = none ∧
    loanRow rawNull ∈ «_make_tables_combined» [rawNull, rawA] ∧
    (cancelRow rawNull).«日付» = none ∧
    cancelRow rawNull ∈ «_make_tables_combined» [rawNull, rawA] := by
  have h := C9_unparseable_date_retained [rawNull, rawA] rawNull (by decide)
  have h1 := h.1 (by decide)
  have h2 := h.2 (by decide)
  exact ⟨h1.2.2.1, h1.2.2.2.1, h2.2.2.1, h2.2.2.2.1⟩

/-- C7: every unified record with `日付 = D` appears in the per-date partition
for `D` (whose date is among the collected sheet dates) and in no other
partition — both before and after the partition's three-key sort — and every
record with the null date sentinel appears in no partition at all. -/
theorem C7_partition_correct (df : List RawRow) (u : UnifiedRow)
    (hu : u ∈ «_make_tables_combined» df) :
    (∀ D : List Char, u.«日付» = some D →
      D ∈ partition_dates («_make_tables_combined» df) ∧
      ∀ d ∈ partition_dates («_make_tables_combined» df),
        (u ∈ partition_for («_make_tables_combined» df) d ↔ d = D) ∧
        (u ∈ «_sort_for_date_sheet» (partition_for («_make_tables_combined» df) d) ↔
          d = D)) ∧
    (u.«日付» = none →
      ∀ d ∈ partition_dates («_make_tables_combined» df),
        u ∉ partition_for («_make_tables_combined» df) d ∧
        u ∉ «_sort_for_date_sheet» (partition_for («_make_tables_combined» df) d)) := by
  constructor
  · intro D hD
    have hDmem : D ∈ partition_dates («_make_tables_combined» df) := by
      rw [partition_dates, mem_uniqueAux]
      exact ⟨List.mem_filterMap.mpr ⟨u, hu, hD⟩, List.not_mem_nil D⟩
    refine ⟨hDmem, fun d _ => ?_⟩
    have hpart : u ∈ partition_for («_make_tables_combined» df) d ↔ d = D := by
      rw [partition_for, List.mem_filter]
      constructor
      · intro ⟨_, hf⟩
        have hf2 := of_decide_eq_true hf
        rw [hD] at hf2
        exact (Option.some_inj.mp hf2).symm
      · intro he
        subst he
        exact ⟨hu, decide_eq_true hD⟩
    refine ⟨hpart, ?_⟩
    rw [(perm_sort_for_date_sheet _).mem_iff]
    exact hpart
  · intro hnull d _
    have hpart : u ∉ partition_for («_make_tables_combined» df) d := by
      intro hmem
      have hf := of_decide_eq_true (List.mem_filter.mp hmem).2
      rw [hnull] at hf
      exact Option.noConfusion hf
    refine ⟨hpart, ?_⟩
    rw [(perm_sort_for_date_sheet _).mem_iff]
    exact hpart

/-- Witness for C7 at the one-row raw set with disbursement date 2024/06/01. -/
theorem C7_partition_correct_witness :
    strftimeYMD d20240601 ∈ partition_dates («_make_tables_combined» [rawA]) ∧
    (loanRow rawA ∈
        partition_for («_make_tables_combined» [rawA]) (strftimeYMD d20240601) ↔
      strftimeYMD d20240601 = strftimeYMD d20240601) := by
  have h := (C7_partition_correct [rawA] (loanRow rawA) (by decide)).1
    (strftimeYMD d20240601) (by decide)
  exact ⟨h.1, (h.2 _ h.1).1⟩

/-- C4 counterexample: the time parser accepts a **negative** first component
(Python `int` parses signed integers) and accepts **more than three** `:`
components (indices 3+ are silently ignored), returning a value instead of
the claimed no-value sentinel in both cases. -/
theorem C4_counterexample_signed_extra :
    «_parse_time_like» (Cell.str "-1:30".data) = some (-1800) ∧
    «_parse_time_like» (Cell.str "-1:30".data) ≠ none ∧
    «_parse_time_like» (Cell.str "1:2:3:4".data) = some 3723 ∧
    «_parse_time_like» (Cell.str "1:2:3:4".data) ≠ none := by
  exact ⟨by decide, by decide, by decide, by decide⟩

/-- C4 (amended): `tosec` trims the text and returns the sentinel when the
result is empty; otherwise it splits on `:` and computes
`h*3600 + m*60 + s` from the Python-`int` parses of the first three
components (missing second/third default to 0, components beyond the third
are ignored, signed integers are accepted), and returns the sentinel — never
an error — whenever one of those first three components fails to parse. -/
theorem C4_parse_time_amended (x : List Char) :
    (pyStrip x = [] → tosec x = none) ∧
    (∀ p0 h, splitOnChar ':' (pyStrip x) = [p0] → pyInt? p0 = some h →
      tosec x = some (h * 3600)) ∧
    (∀ p0 p1 rest h m, splitOnChar ':' (pyStrip x) = p0 :: p1 :: rest →
      pyInt? p0 = some h → pyInt? p1 = some m →
      (rest = [] → tosec x = some (h * 3600 + m * 60)) ∧
      (∀ p2 rest2 s, rest = p2 :: rest2 → pyInt? p2 = some s →
        tosec x = some (h * 3600 + m * 60 + s)) ∧
      (∀ p2 rest2, rest = p2 :: rest2 → pyInt? p2 = none → tosec x = none)) ∧
    (∀ p0 rest, splitOnChar ':' (pyStrip x) = p0 :: rest → pyInt? p0 = none →
      tosec x = none) ∧
    (∀ p0 p1 rest h, splitOnChar ':' (pyStrip x) = p0 :: p1 :: rest →
      pyInt? p0 = some h → pyInt? p1 = none → tosec x = none) := by
  have hempty : ∀ p0 rest, pyStrip x = [] →
      splitOnChar ':' (pyStrip x) = p0 :: rest → pyInt? p0 = none := by
    intro p0 rest he hsplit
    rw [he] at hsplit
    have : p0 = ([] : List Char) := by
      have h1 : splitOnChar ':' ([] : List Char) = [[]] := rfl
      rw [h1] at hsplit
      exact (List.cons.injEq _ _ _ _ ▸ hsplit).1.symm
    rw [this]
    rfl
  refine ⟨?_, ?_, ?_, ?_, ?_⟩
  · intro h
    simp [tosec, h]
  · intro p0 h hsplit hint
    have hne : ¬pyStrip x = [] := by
      intro he
      rw [hempty p0 [] he hsplit] at hint
      exact Option.noConfusion hint
    simp only [tosec, if_neg hne, hsplit, hint]
    norm_num
  · intro p0 p1 rest h m hsplit hint0 hint1
    have hne : ¬pyStrip x = [] := by
      intro he
      rw [hempty p0 (p1 :: rest) he hsplit] at hint0
      exact Option.noConfusion hint0
    refine ⟨?_, ?_, ?_⟩
    · intro hrest
      subst hrest
      simp only [tosec, if_neg hne, hsplit, hint0, hint1]
      norm_num
    · intro p2 rest2 s hrest hint2
      subst hrest
      simp only [tosec, if_neg hne, hsplit, hint0, hint1, hint2]
    · intro p2 rest2 hrest hint2
      subst hrest
      simp only [tosec, if_neg hne, hsplit, hint0, hint1, hint2]
  · intro p0 rest hsplit hint
    by_cases hne : pyStrip x = []
    · simp [tosec, hne]
    · simp only [tosec, if_neg hne, hsplit, hint]
  · intro p0 p1 rest h hsplit hint0 hint1
    have hne : ¬pyStrip x = [] := by
      intro he
      rw [hempty p0 (p1 :: rest) he hsplit] at hint0
      exact Option.noConfusion hint0
    simp only [tosec, if_neg hne, hsplit, hint0, hint1]

/-- Witness for C4 at `"09:30:15"` (full parse), a whitespace-only cell
(sentinel), and `"9:xx"` (malformed minutes, sentinel). -/
theorem C4_parse_time_amended_witness :
    tosec "09:30:15".data = some 34215 ∧
    tosec " ".data = none ∧
    tosec "9:xx".data = none := by
  refine ⟨?_, ?_, ?_⟩
  · exact ((C4_parse_time_amended "09:30:15".data).2.2.1 "09".data "30".data
      ["15".data] 9 30 (by decide) (by decide) (by decide)).2.1 "15".data [] 15 rfl
      (by decide)
  · exact (C4_parse_time_amended " ".data).1 (by decide)
  · exact (C4_parse_time_amended "9:xx".data).2.2.2.2 "9".data "xx".data [] 9
      (by decide) (by decide) (by decide)
